import Mathlib

/-!
Shallow embedding of the `bee` repository (Gate.com earn-market monitor bot)
for checking its natural-language specification.

Embedded source files: `src/utils.py` (retry_with_backoff), `src/parser_gate.py`
(APR parsing, envelope extraction, cache, threshold scan), `src/models.py`
(TokenStatus), `src/telegram_bot.py` (BotState registry and the `_check_once`
monitor pass), `src/database.py` (the SQLite tables backing BotState, modelled
as association lists).

Modelling conventions:
* machine floats are modelled as `ℚ`; wall-clock instants as `ℚ` (cache) or `ℕ`
  (monitor pass timestamps);
* Python dicts are association lists with first-match lookup (`alGet`), and the
  dict mutations used by the code (`d[k] = v`, `setdefault`, `del`) are the
  corresponding association-list operations;
* the JSON string produced by `TokenStatus.to_string` is identified with the
  triple of serialized fields (`json.dumps` of that dict is injective in them),
  so string (in)equality of stored statuses is (in)equality of `SerStatus`;
* network I/O is an oracle argument (`ℕ → Except Unit Payload` for page
  fetches, `String → FetchOutcome` for single-asset lookups), and outbound
  messages / persisted status writes are recorded as an explicit event list.
-/

namespace Bee

/-- Association-list lookup with first-match semantics (Python `dict.get`). -/
def alGet {κ α : Type} [DecidableEq κ] : List (κ × α) → κ → Option α
  | [], _ => none
  | (k, v) :: rest, k' => if k = k' then some v else alGet rest k'

/-- Association-list upsert (Python `d[k] = v`; SQLite upsert): replace the
first binding of `k` in place, else append. -/
def alSet {κ α : Type} [DecidableEq κ] : List (κ × α) → κ → α → List (κ × α)
  | [], k, v => [(k, v)]
  | (k', v') :: rest, k, v =>
    if k' = k then (k, v) :: rest else (k', v') :: alSet rest k v

/-- Update every binding of `k` if present, insert nothing (SQL `UPDATE`). -/
def alUpdate {κ α : Type} [DecidableEq κ] : List (κ × α) → κ → α → List (κ × α)
  | [], _, _ => []
  | (k', v') :: rest, k, v =>
    if k' = k then (k, v) :: alUpdate rest k v else (k', v') :: alUpdate rest k v

/-- Remove all bindings of `k` (Python `del d[k]`; SQL `DELETE`). -/
def alRemove {κ α : Type} [DecidableEq κ] : List (κ × α) → κ → List (κ × α)
  | [], _ => []
  | (k', v') :: rest, k =>
    if k' = k then alRemove rest k else (k', v') :: alRemove rest k

/-- Add to a Python `set` modelled as a duplicate-free list. -/
def setAdd (l : List String) (x : String) : List String :=
  if x ∈ l then l else l ++ [x]

/-! ### `src/parser_gate.py` — APR parsing (`_parse_apr_percent`) -/

/-- A Python value sitting in a JSON record field: a number (int/float),
a string, `None`, or anything else. -/
inductive PyVal : Type where
  | num (q : ℚ)
  | str (s : String)
  | pynone
  | other
deriving DecidableEq

def digitsToNat (l : List Char) : ℕ :=
  l.foldl (fun acc c => acc * 10 + (c.toNat - 48)) 0

/-- Exponent part after the `e`/`E` of a Python float literal. -/
def readExponent : List Char → Option ℤ
  | [] => none
  | '-' :: ds =>
    if ds ≠ [] ∧ ds.all Char.isDigit then some (-(digitsToNat ds : ℤ)) else none
  | '+' :: ds =>
    if ds ≠ [] ∧ ds.all Char.isDigit then some (digitsToNat ds : ℤ) else none
  | ds =>
    if ds ≠ [] ∧ ds.all Char.isDigit then some (digitsToNat ds : ℤ) else none

/-- Unsigned decimal-literal core of CPython `float(str)`:
`digits [. digits] [e[±]digits]` with at least one mantissa digit. -/
def pyFloatCore (cs : List Char) : Option ℚ :=
  let ip := cs.takeWhile Char.isDigit
  let r1 := cs.dropWhile Char.isDigit
  let fp := match r1 with
    | '.' :: rest => rest.takeWhile Char.isDigit
    | _ => []
  let r2 := match r1 with
    | '.' :: rest => rest.dropWhile Char.isDigit
    | _ => r1
  if ip = [] ∧ fp = [] then none
  else
    let mant : ℚ := (digitsToNat ip : ℚ) + (digitsToNat fp : ℚ) / ((10 : ℚ) ^ fp.length)
    match r2 with
    | [] => some mant
    | 'e' :: rest => (readExponent rest).map (fun e => mant * (10 : ℚ) ^ e)
    | 'E' :: rest => (readExponent rest).map (fun e => mant * (10 : ℚ) ^ e)
    | _ => none

/-- CPython `float(str)` restricted to finite decimal literals (the shapes the
cleaned APR strings can take): optional sign then `pyFloatCore`. -/
def pyFloat (s : String) : Option ℚ :=
  match s.data with
  | '-' :: rest => (pyFloatCore rest).map Neg.neg
  | '+' :: rest => pyFloatCore rest
  | cs => pyFloatCore cs

/-- The string cleaning in `_parse_apr_percent`: strip `%`, turn non-breaking
spaces into spaces, strip spaces, normalize `,` to `.`. -/
def cleanAprString (s : String) : String :=
  (((s.replace "%" "").replace "\xa0" " ").replace " " "").replace "," "."

/-- `_parse_apr_percent` (src/parser_gate.py): numbers pass through, strings
are cleaned and parsed, `None` and anything else yield no value. -/
def parseAprPercent : PyVal → Option ℚ
  | .num q => some q
  | .str s => pyFloat (cleanAprString s)
  | .pynone => none
  | .other => none

/-! ### Records, sale statuses, `TokenStatus` (src/models.py) -/

/-- One upstream market record, restricted to the fields the code reads.
`fixedList`/`fixableList` are `none` when the field is absent or not a list;
a list entry is `some v` when it is a dict carrying `sale_status = v`, and
`none` when the entry lacks a usable `sale_status`. -/
structure ApiItem : Type where
  asset : String
  sortApr : PyVal
  fixedList : Option (List (Option ℤ))
  fixableList : Option (List (Option ℤ))
deriving DecidableEq

structure SaleStatuses : Type where
  fixed_list : List ℤ
  fixable_list : List ℤ
deriving DecidableEq

/-- `extract_sale_statuses` (src/parser_gate.py): collect the `sale_status`
values of the `fixed_list` / `fixable_list` entries, skipping unusable ones. -/
def extract_sale_statuses (item : ApiItem) : SaleStatuses :=
  { fixed_list := (item.fixedList.getD []).filterMap id
    fixable_list := (item.fixableList.getD []).filterMap id }

/-- `_sort_apr_percent` (src/parser_gate.py). -/
def sortAprPercent (item : ApiItem) : Option ℚ :=
  parseAprPercent item.sortApr

/-- `TokenStatus` (src/models.py). `timestamp : ℕ` stands for the
`datetime.now()` instant; `__post_init__` lower-cases the coin. -/
structure TokenStatus : Type where
  coin : String
  fixed_list : List ℤ
  sort_apr : Option ℚ
  timestamp : ℕ
deriving DecidableEq

/-- `TokenStatus.from_api_response`, called at instant `now`. -/
def TokenStatus.from_api_response (item : ApiItem) (now : ℕ) : TokenStatus :=
  { coin := item.asset.toLower
    fixed_list := (extract_sale_statuses item).fixed_list
    sort_apr := sortAprPercent item
    timestamp := now }

/-- The JSON string written by `TokenStatus.to_string`, identified with its
field triple (`json.dumps` is injective in these fields). -/
structure SerStatus : Type where
  fixed_list : List ℤ
  sort_apr : Option ℚ
  timestamp : ℕ
deriving DecidableEq

/-- `TokenStatus.to_string` (src/models.py). -/
def TokenStatus.to_string (t : TokenStatus) : SerStatus :=
  { fixed_list := t.fixed_list, sort_apr := t.sort_apr, timestamp := t.timestamp }

/-- `TokenStatus.from_string` (src/models.py). -/
def TokenStatus.from_string (coin : String) (s : SerStatus) : TokenStatus :=
  { coin := coin.toLower
    fixed_list := s.fixed_list
    sort_apr := s.sort_apr
    timestamp := s.timestamp }

/-- `TokenStatus.is_available`: at least one product with status 1. -/
def TokenStatus.is_available (t : TokenStatus) : Bool :=
  t.fixed_list.any (fun s => s = 1)

/-- `TokenStatus.is_sold_out`: non-empty and every product has status 2. -/
def TokenStatus.is_sold_out (t : TokenStatus) : Bool :=
  decide (0 < t.fixed_list.length) && t.fixed_list.all (fun s => s = 2)

/-- `TokenStatus.is_partially_available`: some status 1 and some status 2. -/
def TokenStatus.is_partially_available (t : TokenStatus) : Bool :=
  t.fixed_list.any (fun s => s = 1) && t.fixed_list.any (fun s => s = 2)

/-- `TokenStatus.get_status_emoji` (src/models.py). -/
def TokenStatus.get_status_emoji (t : TokenStatus) : String :=
  if t.is_partially_available then "🟡"
  else if t.is_available then "🟢"
  else if t.is_sold_out then "🔴"
  else "⚪"

/-- Python `repr` of a list of ints, as interpolated by the f-strings. -/
def pyReprIntList (l : List ℤ) : String :=
  "[" ++ String.intercalate ", " (l.map toString) ++ "]"

/-- `TokenStatus.get_status_text` (src/models.py). -/
def TokenStatus.get_status_text (t : TokenStatus) : String :=
  if t.fixed_list.isEmpty then "нет фиксированных продуктов"
  else if t.is_partially_available then "частично доступен"
  else if t.is_available then "доступен для покупки"
  else if t.is_sold_out then "распродан"
  else "статус неизвестен (" ++ pyReprIntList t.fixed_list ++ ")"

/-! ### APR display formatting (`:.2f`, src/models.py and src/telegram_bot.py) -/

/-- Round to the nearest integer, ties to even (the rounding of `format`). -/
def roundHalfToEven (q : ℚ) : ℤ :=
  let f := ⌊q⌋
  let r := q - (f : ℚ)
  if r < 1/2 then f
  else if 1/2 < r then f + 1
  else if f % 2 = 0 then f else f + 1

def natPad2 (n : ℕ) : String :=
  if n < 10 then "0" ++ toString n else toString n

/-- Python `f"{q:.2f}"` on the rational model of the float. -/
def format2f (q : ℚ) : String :=
  let n := roundHalfToEven (q * 100)
  let sign := if n < 0 then "-" else ""
  sign ++ toString (n.natAbs / 100) ++ "." ++ natPad2 (n.natAbs % 100)

/-- The APR suffix `f" (APR: {sort_apr * 100:.2f}%)" if sort_apr else ""`,
shared verbatim by `format_for_user` and the monitor message. Python
truthiness makes both `None` and `0.0` take the empty branch. -/
def aprText : Option ℚ → String
  | some x => if x ≠ 0 then " (APR: " ++ format2f (x * 100) ++ "%)" else ""
  | none => ""

/-- `TokenStatus.format_for_user` (src/models.py). -/
def TokenStatus.format_for_user (t : TokenStatus) : String :=
  t.coin.toUpper ++ ": " ++ t.get_status_emoji ++ " " ++ t.get_status_text
    ++ " " ++ pyReprIntList t.fixed_list ++ aprText t.sort_apr

/-- The per-watch change notification text built inside `_check_once`
(src/telegram_bot.py lines 267-271). -/
def monitorChangeMsg (coin : String) (t : TokenStatus) : String :=
  t.get_status_emoji ++ " " ++ coin.toUpper ++ ": " ++ t.get_status_text
    ++ aprText t.sort_apr ++ "\nСтатус изменился: " ++ pyReprIntList t.fixed_list

/-! ### Envelope extraction (`_extract_projects`, src/parser_gate.py) -/

/-- A JSON value in the response envelope: a list of records, a nested
object, or anything else. -/
inductive JVal : Type where
  | list (items : List ApiItem)
  | obj (fields : List (String × JVal))
  | other

/-- The JSON response envelope: a top-level object. -/
structure Payload : Type where
  fields : List (String × JVal)

def Payload.get (p : Payload) (k : String) : Option JVal :=
  alGet p.fields k

/-- `isinstance(x, list)` refinement of a field lookup. -/
def asList : Option JVal → Option (List ApiItem)
  | some (.list l) => some l
  | _ => none

/-- `isinstance(x, dict)` refinement of a field lookup. -/
def asObj : Option JVal → Option (List (String × JVal))
  | some (.obj f) => some f
  | _ => none

/-- `_extract_projects` (src/parser_gate.py lines 138-146), transcribed
branch for branch. -/
def extract_projects (p : Payload) : List ApiItem :=
  match asList (p.get "data") with
  | some l => l
  | none =>
    match asList (p.get "list") with
    | some l => l
    | none =>
      match asList (p.get "result") with
      | some l => l
      | none =>
        match asList (p.get "rows") with
        | some l => l
        | none =>
          match asObj (p.get "data") with
          | some d =>
            match asList (alGet d "list") with
            | some l => l
            | none =>
              match asList (alGet d "rows") with
              | some l => l
              | none =>
                match asList (alGet d "data") with
                | some l => l
                | none => []
          | none => []

/-- The claim's description of envelope extraction (claim C8): the first
sequence among `data`, `list`, `result`, `rows`, then one level into a
mapping-valued `data` trying `list`, `rows`, `data`, else empty. -/
def extract_projects_claimed (p : Payload) : List ApiItem :=
  match [p.get "data", p.get "list", p.get "result", p.get "rows"].findSome? asList with
  | some l => l
  | none =>
    match asObj (p.get "data") with
    | some d => ([alGet d "list", alGet d "rows", alGet d "data"].findSome? asList).getD []
    | none => []

/-! ### Cache and threshold scan (src/parser_gate.py) -/

/-- `CacheEntry` (src/parser_gate.py): payload plus creation instant. -/
structure CacheEntry : Type where
  data : List ApiItem
  timestamp : ℚ

/-- `CacheEntry.is_expired`, with `time.time()` passed explicitly as `now`. -/
def CacheEntry.is_expired (e : CacheEntry) (ttl : ℚ) (now : ℚ) : Bool :=
  decide (now - e.timestamp > ttl)

/-- `ProjectCache._cache`: a map from threshold to entry. -/
abbrev ProjectCache : Type := ℚ → Option CacheEntry

/-- `ProjectCache.get`: return the data when an entry exists and is not
expired, else no value. -/
def cacheGet (c : ProjectCache) (threshold ttl now : ℚ) : Option (List ApiItem) :=
  match c threshold with
  | some e => if ¬ e.is_expired ttl now then some e.data else none
  | none => none

/-- `ProjectCache.set`. -/
def cacheSet (c : ProjectCache) (threshold : ℚ) (data : List ApiItem) (now : ℚ) :
    ProjectCache :=
  fun t => if t = threshold then some { data := data, timestamp := now } else c t

/-- `config.TOTAL_PAGES` (src/config.py). -/
def TOTAL_PAGES : ℕ := 112

/-- `_process_page` (src/parser_gate.py): fetch one page (the oracle stands
for `_fetch_page` after throttling and retries; `.error` is a raised
exception) and keep the records whose parsed rate exceeds the threshold. -/
def process_page (fetch : ℕ → Except Unit Payload) (page : ℕ) (threshold : ℚ) :
    Except Unit (List ApiItem) :=
  match fetch page with
  | .error e => .error e
  | .ok payload =>
    .ok ((extract_projects payload).filter (fun item =>
      match sortAprPercent item with
      | some v => decide (v > threshold)
      | none => false))

/-- Result of `fetch_projects_with_apr_gt`: the returned list, the cache
afterwards, and the pages on which a fetch task was dispatched. -/
structure ScanResult : Type where
  results : List ApiItem
  cache : ProjectCache
  fetchedPages : List ℕ

/-- `fetch_projects_with_apr_gt` (src/parser_gate.py). On a cache probe the
code tests `if cached:`, so `None` and the empty list both fall through to a
full scan. A page whose `_process_page` raises is skipped (`except` branch);
the worker pool merges per-page matches (modelled in page order, one
admissible completion order). -/
def fetch_projects_with_apr_gt (cache : ProjectCache) (fetch : ℕ → Except Unit Payload)
    (threshold : ℚ) (force_refresh : Bool) (now : ℚ) : ScanResult :=
  let cachedTruthy : Option (List ApiItem) :=
    if force_refresh then none
    else
      match cacheGet cache threshold 300 now with
      | some d => if d.isEmpty then none else some d
      | none => none
  match cachedTruthy with
  | some d => { results := d, cache := cache, fetchedPages := [] }
  | none =>
    let pages := List.range' 1 TOTAL_PAGES
    let results := pages.foldl (fun acc p =>
      match process_page fetch p threshold with
      | .ok matched => acc ++ matched
      | .error _ => acc) []
    { results := results, cache := cacheSet cache threshold results now
      fetchedPages := pages }

/-- The contribution of one page to a scan: its threshold matches when the
fetch succeeds, nothing when it raises (the page is skipped). -/
def pageMatches (fetch : ℕ → Except Unit Payload) (threshold : ℚ) (page : ℕ) :
    List ApiItem :=
  match process_page fetch page threshold with
  | .ok m => m
  | .error _ => []

/-! ### `retry_with_backoff` (src/utils.py) -/

/-- What one call of the wrapped operation does: succeed, raise
`urllib.error.HTTPError` with a status code, or raise a network-level error
(`URLError`/`TimeoutError`/`ConnectionError`); `tag` keeps distinct network
errors distinguishable. -/
inductive AttemptResult (T : Type) : Type where
  | ok (value : T)
  | httpError (code : ℕ)
  | netError (tag : ℕ)

/-- An exception escaping `retry_with_backoff`. -/
inductive RetryError : Type where
  | http (code : ℕ)
  | net (tag : ℕ)
deriving DecidableEq

def errOf {T : Type} : AttemptResult T → Option RetryError
  | .ok _ => none
  | .httpError c => some (.http c)
  | .netError t => some (.net t)

def isRetryableFailure {T : Type} : AttemptResult T → Prop
  | .ok _ => False
  | .httpError c => c = 429 ∨ (500 ≤ c ∧ c < 600)
  | .netError _ => True

instance {T : Type} (r : AttemptResult T) : Decidable (isRetryableFailure r) := by
  cases r <;> simp [isRetryableFailure] <;> infer_instance

/-- The attempt loop of `retry_with_backoff`. `f a` is what attempt `a` does;
`fuel` counts the remaining loop iterations (`max_attempts - attempt + 1`);
`last` is `last_exception`. Returns the outcome (`.error last` models
`raise last_exception` after the loop, `.error (some e)` inside the loop the
immediate re-raise of a client error) together with the list of sleep
durations performed, in order. A sleep is only performed when
`attempt < max_attempts`, exactly as in the source. -/
def retryGo {T : Type} (f : ℕ → AttemptResult T) (base_delay max_delay : ℚ)
    (max_attempts : ℕ) :
    ℕ → ℕ → Option RetryError → Except (Option RetryError) T × List ℚ
  | 0, _, last => (.error last, [])
  | fuel + 1, attempt, _ =>
    match f attempt with
    | .ok v => (.ok v, [])
    | .httpError c =>
      if c = 429 then
        let rest := retryGo f base_delay max_delay max_attempts fuel (attempt + 1)
          (some (.http c))
        (rest.1, if attempt < max_attempts then (60 : ℚ) :: rest.2 else rest.2)
      else if 500 ≤ c ∧ c < 600 then
        let d := min (base_delay * 2 ^ (attempt - 1)) max_delay
        let rest := retryGo f base_delay max_delay max_attempts fuel (attempt + 1)
          (some (.http c))
        (rest.1, if attempt < max_attempts then d :: rest.2 else rest.2)
      else
        (.error (some (.http c)), [])
    | .netError t =>
      let d := min (base_delay * 2 ^ (attempt - 1)) max_delay
      let rest := retryGo f base_delay max_delay max_attempts fuel (attempt + 1)
        (some (.net t))
      (rest.1, if attempt < max_attempts then d :: rest.2 else rest.2)

/-- `retry_with_backoff(func, max_attempts, base_delay, max_delay)`
(src/utils.py): run the loop from attempt 1 with no last exception. -/
def retry_with_backoff {T : Type} (f : ℕ → AttemptResult T) (max_attempts : ℕ)
    (base_delay max_delay : ℚ) : Except (Option RetryError) T × List ℚ :=
  retryGo f base_delay max_delay max_attempts max_attempts 1 none

/-- A sample upstream record (asset `algo`, rate 0.025, one available fixed
product), used to instantiate claims at concrete inputs. -/
def sampleItem : ApiItem :=
  { asset := "algo", sortApr := .num (1/40), fixedList := some [some 1]
    fixableList := none }

/-! ### Persistent store (src/database.py) -/

/-- The SQLite tables `BotState` writes through to: `subscribers`
(chat_id primary key, paused flag) and `watches` (unique on (chat, coin),
carrying the serialized status). -/
structure DbState : Type where
  subscribers : List (String × Bool)
  watches : List ((String × String) × SerStatus)

/-- `Database.add_subscriber`: INSERT, returning false on the primary-key
conflict (row already present). The fresh row has `paused = 0`. -/
def dbAddSubscriber (db : DbState) (chat : String) : DbState × Bool :=
  if (alGet db.subscribers chat).isSome then (db, false)
  else ({ db with subscribers := db.subscribers ++ [(chat, false)] }, true)

/-- `Database.is_paused`: false when the row does not exist. -/
def dbIsPaused (db : DbState) (chat : String) : Bool :=
  (alGet db.subscribers chat).getD false

/-- `Database.add_watch`: upsert on (chat, coin). -/
def dbAddWatch (db : DbState) (chat coin : String) (status : SerStatus) : DbState :=
  { db with watches := alSet db.watches (chat, coin) status }

/-- `Database.update_watch_status`: an SQL UPDATE — it rewrites a matching
row but inserts nothing when the row is absent. -/
def dbUpdateWatchStatus (db : DbState) (chat coin : String) (status : SerStatus) :
    DbState :=
  { db with watches := alUpdate db.watches (chat, coin) status }

/-- `Database.remove_watch`: DELETE, returning whether a row was removed. -/
def dbRemoveWatch (db : DbState) (chat coin : String) : DbState × Bool :=
  ({ db with watches := alRemove db.watches (chat, coin) },
   (alGet db.watches (chat, coin)).isSome)

/-! ### `BotState` registry (src/telegram_bot.py lines 88-190) -/

/-- The watch dict-of-dicts `self.watch : chat → coin → serialized status`. -/
abbrev WatchMap : Type := List (String × List (String × SerStatus))

def wGet (w : WatchMap) (chat coin : String) : Option SerStatus :=
  match alGet w chat with
  | some coins => alGet coins coin
  | none => none

/-- `self.watch.setdefault(chat, dict())[coin] = v`. -/
def wSet (w : WatchMap) (chat coin : String) (v : SerStatus) : WatchMap :=
  match alGet w chat with
  | some coins => alSet w chat (alSet coins coin v)
  | none => w ++ [(chat, [(coin, v)])]

/-- The in-memory `BotState`, carrying its persistent store. -/
structure BotStateM : Type where
  db : DbState
  subscribers : List String
  watch : WatchMap
  global_failures : ℕ
  global_alerted : Bool
  coin_failures : List (String × ℕ)
  coin_alerted : List String

/-- `BotState.add_subscriber`: db insert first, then the in-memory set add
and `watch.setdefault(chat, dict())`. -/
def add_subscriber (s : BotStateM) (chat : String) : BotStateM :=
  let db2 := (dbAddSubscriber s.db chat).1
  { s with db := db2
           subscribers := setAdd s.subscribers chat
           watch := if (alGet s.watch chat).isSome then s.watch else s.watch ++ [(chat, [])] }

/-- `BotState.set_watch`: db upsert first, then the in-memory upsert. -/
def set_watch (s : BotStateM) (chat coin : String) (st : SerStatus) : BotStateM :=
  { s with db := dbAddWatch s.db chat coin st
           watch := wSet s.watch chat coin st }

/-- `BotState.get_watches`: flatten the watch map into (chat, coin, status)
triples. -/
def get_watches (s : BotStateM) : List (String × String × SerStatus) :=
  s.watch.flatMap (fun cw => cw.2.map (fun p => (cw.1, p.1, p.2)))

/-- `BotState.remove_watch`: db delete first, then drop the in-memory entry
when present. -/
def remove_watch (s : BotStateM) (chat coin : String) : BotStateM × Bool :=
  let (db2, removed) := dbRemoveWatch s.db chat coin
  let watch2 :=
    match alGet s.watch chat with
    | some coins =>
      if (alGet coins coin).isSome then alSet s.watch chat (alRemove coins coin)
      else s.watch
    | none => s.watch
  ({ s with db := db2, watch := watch2 }, removed)

/-- `BotState.clear_watches`: delete each of the chat's coins from the db,
then assign the chat an empty in-memory dict. -/
def clear_watches (s : BotStateM) (chat : String) : BotStateM :=
  let coins := (alGet s.watch chat).getD []
  let db2 := coins.foldl (fun db p => (dbRemoveWatch db chat p.1).1) s.db
  { s with db := db2, watch := alSet s.watch chat [] }

/-- `BotState.update_status`: compare the stored serialized status with the
new one; when they differ, write through (`db.update_watch_status`, an
UPDATE) and set the in-memory entry, returning whether a write occurred. -/
def update_status (s : BotStateM) (chat coin : String) (new : SerStatus) :
    BotStateM × Bool :=
  let current := wGet s.watch chat coin
  if current ≠ some new then
    ({ s with db := dbUpdateWatchStatus s.db chat coin new
              watch := wSet s.watch chat coin new }, true)
  else (s, false)

/-! ### The monitor pass `_check_once` (src/telegram_bot.py lines 205-280) -/

/-- Outcome of `fetch_token_info(coin)` inside the pass: an exception with
message `msg`, an empty (`None`) result, or a record. -/
inductive FetchOutcome : Type where
  | fail (msg : String)
  | empty
  | success (item : ApiItem)

def FetchOutcome.isSuccess : FetchOutcome → Bool
  | .success _ => true
  | _ => false

/-- Observable effects of a pass. `.alert` is one `_send_alert` broadcast
(the code prefixes each delivered copy with `[ALERT]` and sends it to every
current subscriber, logging instead when there are none); `.notify` is one
`send_message` to one chat; `.write` records one persisted status write
performed via `update_status`. -/
inductive Event : Type where
  | alert (text : String)
  | notify (chat : String) (text : String)
  | write (chat coin : String) (st : SerStatus)
deriving DecidableEq

/-- The recovery notice text of `_check_once`. -/
def recoveryMsg : String := "✅ Получение данных восстановлено — API работает снова"

def Event.isAlert : Event → Bool
  | .alert _ => true
  | _ => false

def Event.isRecovery : Event → Bool
  | .alert t => t = recoveryMsg
  | _ => false

def Event.isFailureAlert (e : Event) : Bool :=
  e.isAlert && !e.isRecovery

def Event.isNotify : Event → Bool
  | .notify _ _ => true
  | _ => false

def Event.isWrite : Event → Bool
  | .write _ _ _ => true
  | _ => false

def countEvents (p : Event → Bool) (evs : List Event) : ℕ :=
  (evs.filter p).length

/-- The `status_changed` computation in `_check_once` (lines 251-257):
compare the new record's classification with the one reconstructed from the
stored serialized status; a missing (falsy) prior status counts as changed. -/
def statusChangedOf (coin : String) (old? : Option SerStatus) (new : TokenStatus) : Bool :=
  match old? with
  | some oldSer =>
    decide ((TokenStatus.from_string coin oldSer).fixed_list ≠ new.fixed_list)
  | none => true

/-- One iteration of the watch loop in `_check_once`, threading
(state, events so far, any_success). Skips paused chats; on a fetch failure
or an empty result sends one global alert only when `global_alerted` is
still false; on success builds the new `TokenStatus` at instant `now`,
recomputes `status_changed` from the stored serialized status (a missing one
counts as changed), calls `update_status`, and notifies the chat iff the
write occurred and the classification changed. -/
def checkStep (fetch : String → FetchOutcome) (now : ℕ)
    (acc : BotStateM × List Event × Bool) (w : String × String × SerStatus) :
    BotStateM × List Event × Bool :=
  let s := acc.1
  let evs := acc.2.1
  let anySucc := acc.2.2
  let chat := w.1
  let coin := w.2.1
  if dbIsPaused s.db chat then (s, evs, anySucc)
  else
    match fetch coin with
    | .fail msg =>
      if !s.global_alerted then
        ({ s with global_alerted := true },
         evs ++ [.alert ("Ошибка при получении данных: " ++ msg)], anySucc)
      else (s, evs, anySucc)
    | .empty =>
      if !s.global_alerted then
        ({ s with global_alerted := true },
         evs ++ [.alert ("Ошибка: пустой ответ для " ++ coin.toUpper)], anySucc)
      else (s, evs, anySucc)
    | .success info =>
      let token_status := TokenStatus.from_api_response info now
      let current_status := token_status.to_string
      let old? := wGet s.watch chat coin
      let status_changed := statusChangedOf coin old? token_status
      let upd := update_status s chat coin current_status
      let writeEvs := if upd.2 then [Event.write chat coin current_status] else []
      let notifyEvs :=
        if upd.2 && status_changed then
          [Event.notify chat (monitorChangeMsg coin token_status)]
        else []
      (upd.1, evs ++ writeEvs ++ notifyEvs, true)

/-- `_check_once`: snapshot the watches, run the loop, and when the pass saw
at least one success while a global alert is active, send the recovery
notice and reset the whole failure state. -/
def check_once (s : BotStateM) (fetch : String → FetchOutcome) (now : ℕ) :
    BotStateM × List Event :=
  let ws := get_watches s
  let r := ws.foldl (checkStep fetch now) (s, [], false)
  let s1 := r.1
  let evs := r.2.1
  let anySucc := r.2.2
  if anySucc && s1.global_alerted then
    ({ s1 with global_alerted := false, global_failures := 0
               coin_failures := [], coin_alerted := [] },
     evs ++ [.alert recoveryMsg])
  else (s1, evs)

/-- A sequence of monitor passes, each with its own fetch oracle and
timestamp (`_monitor_loop` calling `_check_once` repeatedly). -/
def runPasses (s : BotStateM) : List ((String → FetchOutcome) × ℕ) → BotStateM × List Event
  | [] => (s, [])
  | p :: rest =>
    let r1 := check_once s p.1 p.2
    let r2 := runPasses r1.1 rest
    (r2.1, r1.2 ++ r2.2)

/-- A sample record with no rate field (asset `algo`, one available fixed
product), for concrete monitor runs whose stored statuses avoid rationals. -/
def plainItem : ApiItem :=
  { asset := "algo", sortApr := .pynone, fixedList := some [some 1]
    fixableList := none }

/-- A registry holding exactly one subscriber `chat` (not paused) and one
watch `(chat, coin)` with stored status `stored`, memory and persistence in
agreement, no alert active. -/
def singleWatchState (chat coin : String) (stored : SerStatus) : BotStateM :=
  { db := { subscribers := [(chat, false)], watches := [((chat, coin), stored)] }
    subscribers := [chat], watch := [(chat, [(coin, stored)])]
    global_failures := 0, global_alerted := false
    coin_failures := [], coin_alerted := [] }

/-- Memory–persistence agreement (claim C4): the in-memory subscriber set and
watch map coincide pointwise with the persisted `subscribers` and `watches`
tables. -/
def Sync (s : BotStateM) : Prop :=
  (∀ chat, chat ∈ s.subscribers ↔ (alGet s.db.subscribers chat).isSome) ∧
  (∀ chat coin, wGet s.watch chat coin = alGet s.db.watches (chat, coin))

/-- A `BotState` with empty store and empty memory (fresh start). -/
def emptyBotState : BotStateM :=
  { db := { subscribers := [], watches := [] }
    subscribers := [], watch := [], global_failures := 0, global_alerted := false
    coin_failures := [], coin_alerted := [] }

/-- The state mid-way through `add_subscriber`: the persistent insert has
happened, memory is untouched (the statement order inside the lock). -/
def add_subscriber_mid (s : BotStateM) (chat : String) : BotStateM :=
  { s with db := (dbAddSubscriber s.db chat).1 }

/-- The state mid-way through `set_watch`: db upsert done, memory untouched. -/
def set_watch_mid (s : BotStateM) (chat coin : String) (st : SerStatus) : BotStateM :=
  { s with db := dbAddWatch s.db chat coin st }

/-- The state mid-way through `remove_watch`: db delete done, memory
untouched. -/
def remove_watch_mid (s : BotStateM) (chat coin : String) : BotStateM :=
  { s with db := (dbRemoveWatch s.db chat coin).1 }

/-- The state mid-way through `clear_watches`: all the chat's db rows
deleted, memory untouched. -/
def clear_watches_mid (s : BotStateM) (chat : String) : BotStateM :=
  let db2 := ((alGet s.watch chat).getD []).foldl
    (fun db p => (dbRemoveWatch db chat p.1).1) s.db
  { s with db := db2 }

/-- The state mid-way through `update_status`: on the writing branch the db
UPDATE has happened, memory is untouched; on the no-write branch nothing
happens. -/
def update_status_mid (s : BotStateM) (chat coin : String) (new : SerStatus) :
    BotStateM :=
  if wGet s.watch chat coin ≠ some new then
    { s with db := dbUpdateWatchStatus s.db chat coin new }
  else s

/-! ## Theorems -/

/-! ### Association-list lemmas shared by the registry and monitor claims -/

/-- Lookup distributes over append, preferring the left list. -/
theorem alGet_append {κ α : Type} [DecidableEq κ] (l1 l2 : List (κ × α)) (k : κ) :
    alGet (l1 ++ l2) k = match alGet l1 k with
      | some v => some v
      | none => alGet l2 k := by
  induction l1 with
  | nil => simp [alGet]
  | cons p rest ih =>
    obtain ⟨k0, v0⟩ := p
    by_cases h : k0 = k
    · simp [alGet, h]
    · simp [alGet, h, ih]

/-- Lookup after upsert. -/
theorem alGet_alSet {κ α : Type} [DecidableEq κ] (l : List (κ × α)) (k k' : κ) (v : α) :
    alGet (alSet l k v) k' = if k = k' then some v else alGet l k' := by
  induction l with
  | nil => simp [alSet, alGet]
  | cons p rest ih =>
    obtain ⟨k0, v0⟩ := p
    by_cases h0 : k0 = k
    · subst h0
      by_cases h : k0 = k' <;> simp [alSet, alGet, h]
    · by_cases h : k0 = k'
      · subst h
        simp [alSet, alGet, h0, Ne.symm h0]
      · simp [alSet, alGet, h0, h, ih]

/-- Lookup after update-without-insert (SQL UPDATE). -/
theorem alGet_alUpdate {κ α : Type} [DecidableEq κ] (l : List (κ × α)) (k k' : κ) (v : α) :
    alGet (alUpdate l k v) k' =
      if k = k' then (alGet l k).map (fun _ => v) else alGet l k' := by
  induction l with
  | nil => simp [alUpdate, alGet]
  | cons p rest ih =>
    obtain ⟨k0, v0⟩ := p
    by_cases h0 : k0 = k
    · subst h0
      by_cases h : k0 = k' <;> simp [alUpdate, alGet, h, ih]
    · by_cases h : k0 = k'
      · subst h
        simp [alUpdate, alGet, h0, Ne.symm h0, ih]
      · simp [alUpdate, alGet, h0, h, ih]

/-- Lookup after removal. -/
theorem alGet_alRemove {κ α : Type} [DecidableEq κ] (l : List (κ × α)) (k k' : κ) :
    alGet (alRemove l k) k' = if k = k' then none else alGet l k' := by
  induction l with
  | nil => simp [alRemove, alGet]
  | cons p rest ih =>
    obtain ⟨k0, v0⟩ := p
    by_cases h0 : k0 = k
    · subst h0
      by_cases h : k0 = k'
      · subst h
        simp [alRemove, alGet, ih]
      · simp [alRemove, alGet, h, ih]
    · by_cases h : k0 = k'
      · subst h
        simp [alRemove, alGet, h0, Ne.symm h0, ih]
      · simp [alRemove, alGet, h0, h, ih]

/-- Lookup in the watch dict-of-dicts after a nested set. -/
theorem wGet_wSet (w : WatchMap) (chat coin chat' coin' : String) (v : SerStatus) :
    wGet (wSet w chat coin v) chat' coin' =
      if chat = chat' ∧ coin = coin' then some v else wGet w chat' coin' := by
  unfold wGet wSet
  cases hc : alGet w chat with
  | some coins =>
    rw [alGet_alSet]
    by_cases h1 : chat = chat'
    · subst h1
      simp only [alGet_alSet, if_pos rfl, hc]
      by_cases h2 : coin = coin' <;> simp [h2, alGet_alSet]
    · simp [h1]
  | none =>
    rw [alGet_append]
    by_cases h1 : chat = chat'
    · subst h1
      simp only [hc]
      by_cases h2 : coin = coin' <;> simp [h2, alGet]
    · by_cases hq : (alGet w chat').isSome
      · obtain ⟨coins', hc'⟩ := Option.isSome_iff_exists.mp hq
        simp [hc', h1, alGet]
      · have hn : alGet w chat' = none := Option.not_isSome_iff_eq_none.mp hq
        simp [hn, h1, alGet, Ne.symm h1]

/-- Claim C8: for every JSON payload mapping, envelope extraction returns the
first sequence found by trying, in order, `payload.data` (if it is a
sequence), then `payload.list`, `payload.result`, `payload.rows`; if none of
these is a sequence and `payload.data` is itself a mapping, it then tries
that mapping's `list`, `rows`, `data` members in order; if no sequence is
found it returns the empty sequence. Stated as: `_extract_projects` equals
the function written exactly from the claim's words. -/
theorem claim_C8_envelope_extraction (p : Payload) :
    extract_projects p = extract_projects_claimed p := by
  unfold extract_projects extract_projects_claimed
  simp only [List.findSome?_cons, List.findSome?_nil]
  cases h1 : asList (p.get "data") <;>
  cases h2 : asList (p.get "list") <;>
  cases h3 : asList (p.get "result") <;>
  cases h4 : asList (p.get "rows") <;>
  simp [h1, h2, h3, h4] <;>
  cases h5 : asObj (p.get "data") <;>
  simp [h5] <;>
  cases h6 : asList (alGet (Option.getD (asObj (p.get "data")) []) "list") <;>
  simp_all <;>
  cases h7 : asList (alGet (Option.getD (asObj (p.get "data")) []) "rows") <;>
  simp_all <;>
  cases h8 : asList (alGet (Option.getD (asObj (p.get "data")) []) "data") <;>
  simp_all

/-- Claim C9: a `TokenStatus` whose `sort_apr` is `0.0` renders exactly like
one with an absent rate, both in `format_for_user` and in the monitor's
change-notification text (Python truthiness of `0.0` drops the APR suffix),
while a nonzero rate `x` is rendered as `x*100` formatted to two decimal
places with a `%` sign; concretely `0.025` renders as `2.50%`. -/
theorem claim_C9_zero_apr_renders_as_absent (ts : TokenStatus) (coin : String) (x : ℚ) :
    (TokenStatus.format_for_user { ts with sort_apr := some 0 } =
      TokenStatus.format_for_user { ts with sort_apr := none }) ∧
    (monitorChangeMsg coin { ts with sort_apr := some 0 } =
      monitorChangeMsg coin { ts with sort_apr := none }) ∧
    (aprText (some 0) = "" ∧ aprText none = "") ∧
    (x ≠ 0 → aprText (some x) = " (APR: " ++ format2f (x * 100) ++ "%)") ∧
    aprText (some (1/40 : ℚ)) = " (APR: 2.50%)" := by
  refine ⟨?_, ?_, ⟨rfl, rfl⟩, ?_, ?_⟩
  · simp [TokenStatus.format_for_user, aprText, TokenStatus.get_status_emoji,
      TokenStatus.get_status_text, TokenStatus.is_partially_available,
      TokenStatus.is_available, TokenStatus.is_sold_out]
  · simp [monitorChangeMsg, aprText, TokenStatus.get_status_emoji,
      TokenStatus.get_status_text, TokenStatus.is_partially_available,
      TokenStatus.is_available, TokenStatus.is_sold_out]
  · intro h
    simp [aprText, h]
  · have h : Bee.format2f ((1/40 : ℚ) * 100) = "2.50" := by
      have h1 : (1/40 : ℚ) * 100 * 100 = 250 := by norm_num
      have hr : Bee.roundHalfToEven ((1/40 : ℚ) * 100 * 100) = 250 := by
        rw [h1]
        norm_num [Bee.roundHalfToEven]
      simp only [Bee.format2f, hr]
      rfl
    rw [Bee.aprText, if_pos (by norm_num), h]
    rfl

/-- Witness for C9 at a concrete nonzero rate, discharging the `x ≠ 0`
hypothesis of the nonzero-rendering clause. -/
theorem claim_C9_witness :
    aprText (some (3 : ℚ)) = " (APR: " ++ format2f ((3 : ℚ) * 100) ++ "%)" :=
  (claim_C9_zero_apr_renders_as_absent ⟨"a", [], none, 0⟩ "a" 3).2.2.2.1 (by norm_num)

/-- Claim C10: status classification is total over every list of integers and
always yields one of the four glyphs, with priority
partial > available > sold-out > unknown; and for every non-empty
`fixed_list` with no entry 1 and at least one entry other than 2 (e.g. `[3]`)
both the glyph and the status text fall through to the unknown case. -/
theorem claim_C10_classification_total (t : TokenStatus) :
    (t.get_status_emoji = "🟡" ∨ t.get_status_emoji = "🟢" ∨
      t.get_status_emoji = "🔴" ∨ t.get_status_emoji = "⚪") ∧
    (t.is_partially_available = true → t.get_status_emoji = "🟡") ∧
    (t.is_partially_available = false → t.is_available = true →
      t.get_status_emoji = "🟢") ∧
    (t.is_partially_available = false → t.is_available = false →
      t.is_sold_out = true → t.get_status_emoji = "🔴") ∧
    (t.is_partially_available = false → t.is_available = false →
      t.is_sold_out = false → t.get_status_emoji = "⚪") ∧
    (t.fixed_list ≠ [] → (∀ x ∈ t.fixed_list, x ≠ 1) → (∃ x ∈ t.fixed_list, x ≠ 2) →
      t.get_status_emoji = "⚪" ∧
      t.get_status_text = "статус неизвестен (" ++ pyReprIntList t.fixed_list ++ ")") := by
  refine ⟨?_, ?_, ?_, ?_, ?_, ?_⟩
  · unfold TokenStatus.get_status_emoji
    split_ifs <;> simp
  · intro h
    simp [TokenStatus.get_status_emoji, h]
  · intro h1 h2
    simp [TokenStatus.get_status_emoji, h1, h2]
  · intro h1 h2 h3
    simp [TokenStatus.get_status_emoji, h1, h2, h3]
  · intro h1 h2 h3
    simp [TokenStatus.get_status_emoji, h1, h2, h3]
  · intro h1 h2 h3
    have hav1 : t.fixed_list.any (fun s => decide (s = 1)) = false := by
      rw [List.any_eq_false]
      intro x hx
      simpa using h2 x hx
    have hall : t.fixed_list.all (fun s => decide (s = 2)) = false := by
      rw [List.all_eq_false]
      obtain ⟨x, hx, hx2⟩ := h3
      exact ⟨x, hx, by simpa using hx2⟩
    have hpa : t.is_partially_available = false := by
      simp [TokenStatus.is_partially_available, hav1]
    have hav : t.is_available = false := by
      simp [TokenStatus.is_available, hav1]
    have hso : t.is_sold_out = false := by
      simp [TokenStatus.is_sold_out, hall]
    refine ⟨?_, ?_⟩
    · simp [TokenStatus.get_status_emoji, hpa, hav, hso]
    · simp [TokenStatus.get_status_text, hpa, hav, hso, h1]

/-- Witness for C10 at `fixed_list = [3]`: the glyph and text both land in the
unknown case even though the list is non-empty. -/
theorem claim_C10_witness :
    (TokenStatus.mk "a" [3] none 0).get_status_emoji = "⚪" ∧
    (TokenStatus.mk "a" [3] none 0).get_status_text = "статус неизвестен ([3])" := by
  have h := (claim_C10_classification_total ⟨"a", [3], none, 0⟩).2.2.2.2.2
    (by decide) (by decide) (by decide)
  exact ⟨h.1, by rw [h.2]; rfl⟩

/-- Helper for C6: when every attempt `1..max_attempts` fails retryably, the
loop ends and re-raises the last exception, i.e. the one of the final
attempt. Stated over the loop with its fuel/attempt invariant. -/
theorem retryGo_exhaustion (T : Type) (f : ℕ → AttemptResult T) (maxA : ℕ)
    (base maxD : ℚ) :
    ∀ (k a : ℕ) (last : Option RetryError), a + k = maxA → 1 ≤ a →
    (∀ j, a ≤ j → j ≤ maxA → isRetryableFailure (f j)) →
    (retryGo f base maxD maxA (k + 1) a last).1 = .error (errOf (f maxA)) := by
  intro k
  induction k with
  | zero =>
    intro a last hak ha hr
    have haa : a = maxA := by omega
    subst haa
    have hra := hr a le_rfl le_rfl
    rw [retryGo]
    cases hf : f a with
    | ok v => rw [hf] at hra; exact absurd hra (by simp [isRetryableFailure])
    | httpError c =>
      rw [hf] at hra
      rcases hra with h429 | h5xx
      · subst h429
        simp [retryGo, errOf]
      · have hc : ¬ (c = 429) := by omega
        simp [retryGo, errOf, hc, h5xx.1, h5xx.2]
    | netError t =>
      simp [retryGo, errOf]
  | succ k ih =>
    intro a last hak ha hr
    have hra := hr a le_rfl (by omega)
    rw [retryGo]
    cases hf : f a with
    | ok v => rw [hf] at hra; exact absurd hra (by simp [isRetryableFailure])
    | httpError c =>
      rw [hf] at hra
      rcases hra with h429 | h5xx
      · subst h429
        simpa using ih (a + 1) (some (.http 429)) (by omega) (by omega)
          (fun j hj hj2 => hr j (by omega) hj2)
      · have hc : ¬ (c = 429) := by omega
        simpa [hc, h5xx.1, h5xx.2] using ih (a + 1) (some (.http c)) (by omega) (by omega)
          (fun j hj hj2 => hr j (by omega) hj2)
    | netError t =>
      simpa using ih (a + 1) (some (.net t)) (by omega) (by omega)
        (fun j hj hj2 => hr j (by omega) hj2)

/-- Claim C6: `retry_with_backoff` classification. (1) An HTTP status outside
429 and [500,600) — in particular any other 4xx — on the first attempt is
re-raised immediately, with no sleep and no further attempt. (2) A 429 with
attempts remaining sleeps a fixed 60 seconds (independent of the attempt
number) and retries, consuming one attempt. (3) A 5xx with attempts
remaining sleeps `min(base_delay * 2^(attempt-1), max_delay)` and retries.
(4) A network-level failure behaves like a 5xx. (5) Once all `max_attempts`
attempts have failed, the exception of the last attempt is raised. -/
theorem claim_C6_retry_classification :
    (∀ (T : Type) (f : ℕ → AttemptResult T) (maxA : ℕ) (base maxD : ℚ) (c : ℕ),
      1 ≤ maxA → f 1 = .httpError c → 400 ≤ c → c < 500 → c ≠ 429 →
      retry_with_backoff f maxA base maxD = (.error (some (.http c)), [])) ∧
    (∀ (T : Type) (f : ℕ → AttemptResult T) (maxA fuel a : ℕ) (base maxD : ℚ)
      (last : Option RetryError), f a = .httpError 429 → a < maxA →
      retryGo f base maxD maxA (fuel + 1) a last =
        ((retryGo f base maxD maxA fuel (a + 1) (some (.http 429))).1,
         (60 : ℚ) :: (retryGo f base maxD maxA fuel (a + 1) (some (.http 429))).2)) ∧
    (∀ (T : Type) (f : ℕ → AttemptResult T) (maxA fuel a : ℕ) (base maxD : ℚ)
      (last : Option RetryError) (c : ℕ), f a = .httpError c → 500 ≤ c → c < 600 →
      a < maxA →
      retryGo f base maxD maxA (fuel + 1) a last =
        ((retryGo f base maxD maxA fuel (a + 1) (some (.http c))).1,
         min (base * 2 ^ (a - 1)) maxD ::
           (retryGo f base maxD maxA fuel (a + 1) (some (.http c))).2)) ∧
    (∀ (T : Type) (f : ℕ → AttemptResult T) (maxA fuel a : ℕ) (base maxD : ℚ)
      (last : Option RetryError) (t : ℕ), f a = .netError t → a < maxA →
      retryGo f base maxD maxA (fuel + 1) a last =
        ((retryGo f base maxD maxA fuel (a + 1) (some (.net t))).1,
         min (base * 2 ^ (a - 1)) maxD ::
           (retryGo f base maxD maxA fuel (a + 1) (some (.net t))).2)) ∧
    (∀ (T : Type) (f : ℕ → AttemptResult T) (maxA : ℕ) (base maxD : ℚ),
      1 ≤ maxA → (∀ a, 1 ≤ a → a ≤ maxA → isRetryableFailure (f a)) →
      (retry_with_backoff f maxA base maxD).1 = .error (errOf (f maxA))) := by
  refine ⟨?_, ?_, ?_, ?_, ?_⟩
  · intro T f maxA base maxD c hm hf h4 h5 h9
    obtain ⟨k, rfl⟩ : ∃ k, maxA = k + 1 := ⟨maxA - 1, by omega⟩
    unfold retry_with_backoff retryGo
    rw [hf]
    simp only [h9, if_false]
    rw [if_neg (by omega)]
  · intro T f maxA fuel a base maxD last hf ha
    conv_lhs => rw [retryGo]
    rw [hf]
    simp [ha]
  · intro T f maxA fuel a base maxD last c hf h5 h6 ha
    conv_lhs => rw [retryGo]
    rw [hf]
    have hc : ¬ (c = 429) := by omega
    simp [hc, h5, h6, ha]
  · intro T f maxA fuel a base maxD last t hf ha
    conv_lhs => rw [retryGo]
    rw [hf]
    simp [ha]
  · intro T f maxA base maxD hm hr
    obtain ⟨k, rfl⟩ : ∃ k, maxA = k + 1 := ⟨maxA - 1, by omega⟩
    exact retryGo_exhaustion T f (k + 1) base maxD k 1 none (by omega) le_rfl hr

/-- Witness for C6: a 404 on the first attempt is raised immediately with no
sleeps, and three consecutive network failures exhaust three attempts and
raise the last one. -/
theorem claim_C6_witness :
    retry_with_backoff (T := ℕ) (fun _ => .httpError 404) 3 2 60 =
      (.error (some (.http 404)), []) ∧
    (retry_with_backoff (T := ℕ) (fun a => .netError a) 3 2 60).1 =
      .error (some (.net 3)) := by
  constructor
  · exact claim_C6_retry_classification.1 ℕ _ 3 2 60 404 (by norm_num) rfl
      (by norm_num) (by norm_num) (by norm_num)
  · exact claim_C6_retry_classification.2.2.2.2 ℕ _ 3 2 60 (by norm_num)
      (fun a _ _ => by simp [isRetryableFailure])

/-- Helper: the scan's accumulator fold equals appending each page's
contribution in page order. -/
theorem scan_foldl_eq (fetch : ℕ → Except Unit Payload) (t : ℚ) :
    ∀ (pages : List ℕ) (acc : List ApiItem),
    pages.foldl (fun acc p =>
      match process_page fetch p t with
      | .ok matched => acc ++ matched
      | .error _ => acc) acc = acc ++ pages.flatMap (pageMatches fetch t) := by
  intro pages
  induction pages with
  | nil => intro acc; simp
  | cons p rest ih =>
    intro acc
    rw [List.foldl_cons, List.flatMap_cons]
    cases h : process_page fetch p t with
    | ok m =>
      have hp : pageMatches fetch t p = m := by simp [pageMatches, h]
      simp only [h, hp, ih, List.append_assoc]
    | error e =>
      have hp : pageMatches fetch t p = [] := by simp [pageMatches, h]
      simp only [h, hp, ih, List.nil_append, List.append_nil]

/-- Helper: membership in one page's contribution — the page's fetch
succeeded and the record's parsed rate exceeds the threshold. -/
theorem mem_pageMatches (fetch : ℕ → Except Unit Payload) (t : ℚ) (p : ℕ)
    (item : ApiItem) :
    item ∈ pageMatches fetch t p ↔ ∃ payload,
      fetch p = .ok payload ∧ item ∈ extract_projects payload ∧
      ∃ v, sortAprPercent item = some v ∧ v > t := by
  unfold pageMatches process_page
  cases hf : fetch p with
  | error e => simp [hf]
  | ok payload =>
    simp only [hf, List.mem_filter, Except.ok.injEq]
    constructor
    · rintro ⟨hmem, hpred⟩
      refine ⟨payload, rfl, hmem, ?_⟩
      cases h : sortAprPercent item with
      | none => rw [h] at hpred; simp at hpred
      | some v => rw [h] at hpred; simp at hpred; exact ⟨v, rfl, hpred⟩
    · rintro ⟨payload2, hpl, hmem, v, hv, hvt⟩
      subst hpl
      refine ⟨hmem, ?_⟩
      rw [hv]
      simpa using hvt

/-- Claim C7: a full scan (cache bypassed with `force_refresh`) dispatches one
fetch-and-filter task per page `1..TOTAL_PAGES`; a page that raises after
retry exhaustion is skipped without aborting the (total, never-raising) scan;
and the result is exactly the concatenation over the pages, each failed page
contributing nothing, so a record is returned iff its page's fetch succeeded,
it sits in that page's extracted envelope, and its parsed rate field is some
value strictly greater than the threshold — records with an absent or
unparsable rate are excluded rather than treated as zero. -/
theorem claim_C7_scan_skips_failed_pages (fetch : ℕ → Except Unit Payload)
    (t : ℚ) (c : ProjectCache) (now : ℚ) :
    (fetch_projects_with_apr_gt c fetch t true now).fetchedPages =
      List.range' 1 TOTAL_PAGES ∧
    (fetch_projects_with_apr_gt c fetch t true now).results =
      (List.range' 1 TOTAL_PAGES).flatMap (pageMatches fetch t) ∧
    (∀ item, item ∈ (fetch_projects_with_apr_gt c fetch t true now).results ↔
      ∃ p ∈ List.range' 1 TOTAL_PAGES, ∃ payload,
        fetch p = .ok payload ∧ item ∈ extract_projects payload ∧
        ∃ v, sortAprPercent item = some v ∧ v > t) := by
  have hres : (fetch_projects_with_apr_gt c fetch t true now).results =
      (List.range' 1 TOTAL_PAGES).flatMap (pageMatches fetch t) := by
    simp only [fetch_projects_with_apr_gt, if_true]
    rw [scan_foldl_eq]
    simp
  refine ⟨rfl, hres, ?_⟩
  intro item
  rw [hres, List.mem_flatMap]
  constructor
  · rintro ⟨p, hp, hmem⟩
    exact ⟨p, hp, (mem_pageMatches fetch t p item).1 hmem⟩
  · rintro ⟨p, hp, hrest⟩
    exact ⟨p, hp, (mem_pageMatches fetch t p item).2 hrest⟩

/-- Counterexample to claim C5 as stated: for the record list `d = []` the
claim fails. After `set(2, [])` at time 0, a `get` at time 10 (within the
TTL) does return the cached empty list, yet the scan without `force_refresh`
at time 10 re-executes the full page scan (the code's `if cached:` is false
for an empty list), dispatching fetches on every page instead of none. -/
theorem claim_C5_counterexample :
    cacheGet (cacheSet (fun _ => none) 2 [] 0) 2 300 10 = some [] ∧
    (fetch_projects_with_apr_gt (cacheSet (fun _ => none) 2 [] 0)
      (fun _ => .ok ⟨[]⟩) 2 false 10).fetchedPages ≠ [] := by
  constructor
  · simp [cacheGet, cacheSet, CacheEntry.is_expired]
    norm_num
  · norm_num [fetch_projects_with_apr_gt, cacheGet, cacheSet, CacheEntry.is_expired,
      TOTAL_PAGES, List.range'_eq_nil]

/-- Amended claim C5: after `set(t, d)`, a `get(t, ttl)` with
`now - created_at ≤ ttl` returns `d` (even when `d` is empty); a scan without
`force_refresh` within the TTL returns the cached `d` with no page fetch
provided `d` is non-empty (an empty cached list is treated as a miss); once
`now - created_at > ttl`, `get` returns no value and a subsequent scan
re-executes the full page scan over pages `1..TOTAL_PAGES`. -/
theorem claim_C5_cache_ttl (c : ProjectCache) (t : ℚ) (d : List ApiItem)
    (now0 now ttl : ℚ) (fetch : ℕ → Except Unit Payload) :
    (now - now0 ≤ ttl → cacheGet (cacheSet c t d now0) t ttl now = some d) ∧
    (now - now0 ≤ 300 → d ≠ [] →
      fetch_projects_with_apr_gt (cacheSet c t d now0) fetch t false now =
        ⟨d, cacheSet c t d now0, []⟩) ∧
    (now - now0 > ttl → cacheGet (cacheSet c t d now0) t ttl now = none) ∧
    (now - now0 > 300 →
      (fetch_projects_with_apr_gt (cacheSet c t d now0) fetch t false now).fetchedPages =
        List.range' 1 TOTAL_PAGES) := by
  refine ⟨?_, ?_, ?_, ?_⟩
  · intro h
    simp [cacheGet, cacheSet, CacheEntry.is_expired, not_lt.mpr h]
  · intro h hd
    simp [fetch_projects_with_apr_gt, cacheGet, cacheSet, CacheEntry.is_expired,
      not_lt.mpr h, hd]
  · intro h
    simp [cacheGet, cacheSet, CacheEntry.is_expired, h]
  · intro h
    simp [fetch_projects_with_apr_gt, cacheGet, cacheSet, CacheEntry.is_expired, h]

/-- Witness for the amended C5 at concrete inputs: a fresh non-empty cached
list is served without any fetch. -/
theorem claim_C5_witness :
    fetch_projects_with_apr_gt (cacheSet (fun _ => none) 2 [sampleItem] 0)
      (fun _ => .ok ⟨[]⟩) 2 false 10 =
      ⟨[sampleItem], cacheSet (fun _ => none) 2 [sampleItem] 0, []⟩ :=
  (claim_C5_cache_ttl (fun _ => none) 2 [sampleItem] 0 10 300
    (fun _ => .ok ⟨[]⟩)).2.1 (by norm_num) (by simp)

/-- A key has a binding iff it occurs among the keys. -/
theorem alGet_isSome_iff {κ α : Type} [DecidableEq κ] (l : List (κ × α)) (k : κ) :
    (alGet l k).isSome ↔ k ∈ l.map Prod.fst := by
  induction l with
  | nil => simp [alGet]
  | cons p rest ih =>
    obtain ⟨k0, v0⟩ := p
    by_cases h : k0 = k
    · subst h
      simp [alGet]
    · simp [alGet, h, ih, Ne.symm h]

/-- Appending an empty per-chat dict does not change watch lookups. -/
theorem wGet_append_empty (w : WatchMap) (chat c k : String) :
    wGet (w ++ [(chat, [])]) c k = wGet w c k := by
  unfold wGet
  rw [alGet_append]
  cases h : alGet w c with
  | some coins => simp
  | none =>
    by_cases hc : chat = c <;> simp [alGet, hc]

/-- `add_subscriber` preserves memory-persistence agreement. -/
theorem sync_add_subscriber (s : BotStateM) (chat : String) (h : Sync s) :
    Sync (add_subscriber s chat) := by
  obtain ⟨hs, hw⟩ := h
  constructor
  · intro c
    simp only [add_subscriber, dbAddSubscriber]
    by_cases hp : (alGet s.db.subscribers chat).isSome
    · have hmem : chat ∈ s.subscribers := (hs chat).mpr hp
      simp [hp, setAdd, hmem, hs c]
    · have hmem : chat ∉ s.subscribers := fun hm => hp ((hs chat).mp hm)
      simp only [Option.not_isSome_iff_eq_none.mp hp, Option.isSome_none,
        Bool.false_eq_true, if_false, setAdd, if_neg hmem]
      rw [alGet_append]
      by_cases hc : chat = c
      · subst hc
        simp [alGet, Option.not_isSome_iff_eq_none.mp hp]
      · cases hg : alGet s.db.subscribers c with
        | some b => simp [hg, hs c, List.mem_append]
        | none =>
          simp only [hg, alGet, List.mem_append]
          rw [if_neg hc]
          simp only [List.mem_singleton]
          constructor
          · rintro (hx | hx)
            · exact absurd ((hs c).mp hx) (by simp [hg])
            · exact absurd hx.symm hc
          · intro hx
            simp at hx
  · intro c k
    simp only [add_subscriber]
    by_cases hp : (alGet s.watch chat).isSome
    · simp only [hp, if_true]
      simp [hw c k, dbAddSubscriber]
      split <;> rfl
    · simp only [Option.not_isSome_iff_eq_none.mp hp, Option.isSome_none,
        Bool.false_eq_true, if_false]
      rw [wGet_append_empty]
      simp [hw c k, dbAddSubscriber]
      split <;> rfl

/-- `set_watch` preserves memory-persistence agreement. -/
theorem sync_set_watch (s : BotStateM) (chat coin : String) (st : SerStatus)
    (h : Sync s) : Sync (set_watch s chat coin st) := by
  obtain ⟨hs, hw⟩ := h
  constructor
  · intro c
    simpa [set_watch, dbAddWatch] using hs c
  · intro c k
    simp only [set_watch, dbAddWatch, wGet_wSet, alGet_alSet]
    by_cases h1 : chat = c <;> by_cases h2 : coin = k <;>
      simp [h1, h2, hw c k, Prod.ext_iff]

/-- `remove_watch` preserves memory-persistence agreement. -/
theorem sync_remove_watch (s : BotStateM) (chat coin : String)
    (h : Sync s) : Sync (remove_watch s chat coin).1 := by
  obtain ⟨hs, hw⟩ := h
  constructor
  · intro c
    simpa [remove_watch, dbRemoveWatch] using hs c
  · intro c k
    simp only [remove_watch, dbRemoveWatch, alGet_alRemove]
    cases hm : alGet s.watch chat with
    | none =>
      simp only
      by_cases h1 : chat = c <;> by_cases h2 : coin = k
      · subst h1; subst h2
        simp [Prod.ext_iff, ← hw chat coin, wGet, hm]
      · simp [Prod.ext_iff, h2, hw c k]
      · simp [Prod.ext_iff, h1, hw c k]
      · simp [Prod.ext_iff, h1, hw c k]
    | some coins =>
      cases hmc : alGet coins coin with
      | none =>
        simp only [hmc, Option.isSome_none, Bool.false_eq_true, if_false]
        by_cases h1 : chat = c <;> by_cases h2 : coin = k
        · subst h1; subst h2
          simp [Prod.ext_iff, ← hw chat coin, wGet, hm, hmc]
        · simp [Prod.ext_iff, h2, hw c k]
        · simp [Prod.ext_iff, h1, hw c k]
        · simp [Prod.ext_iff, h1, hw c k]
      | some old =>
        simp only [hmc, Option.isSome_some, if_true]
        by_cases h1 : chat = c
        · subst h1
          by_cases h2 : coin = k
          · subst h2
            simp [wGet, alGet_alSet, alGet_alRemove, Prod.ext_iff]
          · simp [wGet, alGet_alSet, alGet_alRemove, Prod.ext_iff, h2, ← hw chat k, hm]
        · simp [wGet, alGet_alSet, Prod.ext_iff, h1, hw c k]
          rw [← hw c k]
          simp [wGet]

/-- The delete loop of `clear_watches` leaves the subscribers table alone. -/
theorem foldRemove_subscribers (chat : String) :
    ∀ (coins : List (String × SerStatus)) (db : DbState),
    (coins.foldl (fun db p => (dbRemoveWatch db chat p.1).1) db).subscribers =
      db.subscribers := by
  intro coins
  induction coins with
  | nil => intro db; rfl
  | cons p rest ih => intro db; simpa [dbRemoveWatch] using ih _

/-- Lookup in the watches table after the delete loop of `clear_watches`. -/
theorem foldRemove_watches (chat : String) :
    ∀ (coins : List (String × SerStatus)) (db : DbState) (c k : String),
    alGet ((coins.foldl (fun db p => (dbRemoveWatch db chat p.1).1) db).watches) (c, k) =
      if c = chat ∧ k ∈ coins.map Prod.fst then none else alGet db.watches (c, k) := by
  intro coins
  induction coins with
  | nil => intro db c k; simp
  | cons p rest ih =>
    intro db c k
    rw [List.foldl_cons, ih]
    by_cases h1 : c = chat
    · subst h1
      by_cases h2 : k ∈ rest.map Prod.fst
      · simp [h2]
      · by_cases h3 : k = p.1
        · subst h3
          simp [h2, dbRemoveWatch, alGet_alRemove]
        · have h3x : ¬ p.1 = k := fun hx => h3 hx.symm
          simp [h2, h3x, h3, dbRemoveWatch, alGet_alRemove, Prod.ext_iff]
    · have h1x : ¬ chat = c := fun hx => h1 hx.symm
      simp [h1x, h1, dbRemoveWatch, alGet_alRemove, Prod.ext_iff]

/-- `clear_watches` preserves memory-persistence agreement. -/
theorem sync_clear_watches (s : BotStateM) (chat : String)
    (h : Sync s) : Sync (clear_watches s chat) := by
  obtain ⟨hs, hw⟩ := h
  constructor
  · intro c
    simpa [clear_watches, foldRemove_subscribers] using hs c
  · intro c k
    simp only [clear_watches, foldRemove_watches]
    by_cases h1 : c = chat
    · subst h1
      have hleft : wGet (alSet s.watch c []) c k = none := by
        simp [wGet, alGet_alSet, alGet]
      rw [hleft]
      by_cases h2 : k ∈ ((alGet s.watch c).getD []).map Prod.fst
      · simp [h2]
      · simp only [h2, and_false, if_false]
        rw [← hw c k]
        cases hm : alGet s.watch c with
        | none => simp [wGet, hm]
        | some coins =>
          rw [hm] at h2
          simp only [Option.getD_some] at h2
          have hnone : alGet coins k = none := by
            cases hg : alGet coins k with
            | none => rfl
            | some v => exact absurd ((alGet_isSome_iff coins k).mp (by simp [hg])) h2
          simp [wGet, hm, hnone]
    · have hleft : wGet (alSet s.watch chat []) c k = wGet s.watch c k := by
        simp [wGet, alGet_alSet, Ne.symm h1]
      rw [hleft, hw c k]
      simp [h1]

/-- `update_status` preserves memory-persistence agreement when the watch
exists in memory (the SQL UPDATE then hits exactly that row). -/
theorem sync_update_status (s : BotStateM) (chat coin : String) (new : SerStatus)
    (h : Sync s) (hex : (wGet s.watch chat coin).isSome) :
    Sync (update_status s chat coin new).1 := by
  obtain ⟨hs, hw⟩ := h
  by_cases hcond : wGet s.watch chat coin = some new
  case pos =>
    simp only [update_status, hcond, ne_eq, not_true_eq_false, if_false]
    exact ⟨hs, hw⟩
  case neg =>
    simp only [update_status, ne_eq, hcond, not_false_eq_true, if_true]
    constructor
    · intro c
      simpa [dbUpdateWatchStatus] using hs c
    · intro c k
      simp only [dbUpdateWatchStatus, wGet_wSet, alGet_alUpdate]
      by_cases h1 : chat = c
      · subst h1
        by_cases h2 : coin = k
        · subst h2
          obtain ⟨old, hold⟩ := Option.isSome_iff_exists.mp hex
          rw [hw chat coin] at hold
          simp [Prod.ext_iff, hold]
        · simp [Prod.ext_iff, h2, hw chat k]
      · simp [Prod.ext_iff, h1, hw c k]

/-- Counterexample to claim C4 as stated: starting from the empty, fully
agreeing state, `update_status` on a watch that was never registered inserts
the pair into the in-memory map while its SQL UPDATE matches no row, so the
in-memory watch map and the persisted watches table diverge. -/
theorem claim_C4_counterexample :
    Sync emptyBotState ∧
    ¬ Sync (update_status emptyBotState "c" "x" ⟨[], none, 0⟩).1 := by
  constructor
  · exact ⟨fun c => by simp [emptyBotState, alGet],
           fun c k => by simp [emptyBotState, wGet, alGet]⟩
  · intro hsync
    have h2 := hsync.2 "c" "x"
    simp [update_status, emptyBotState, wGet, wSet, alGet, dbUpdateWatchStatus,
      alUpdate] at h2

/-- Amended claim C4: every mutating registry operation applies its
persistent write synchronously before the in-memory update (the
mid-operation states below already carry the operation's final persistent
tables while memory is still untouched), and memory-persistence agreement is
preserved by `add_subscriber`, `set_watch`, `remove_watch` and
`clear_watches` unconditionally — and by `update_status` whenever the
updated watch exists in memory. (For an unregistered pair, `update_status`
updates memory while the UPDATE writes no row; see the counterexample.) -/
theorem claim_C4_write_through (s : BotStateM) (chat coin : String) (st : SerStatus) :
    ((add_subscriber_mid s chat).db = (add_subscriber s chat).db ∧
     (add_subscriber_mid s chat).subscribers = s.subscribers ∧
     (add_subscriber_mid s chat).watch = s.watch) ∧
    ((set_watch_mid s chat coin st).db = (set_watch s chat coin st).db ∧
     (set_watch_mid s chat coin st).watch = s.watch) ∧
    ((remove_watch_mid s chat coin).db = (remove_watch s chat coin).1.db ∧
     (remove_watch_mid s chat coin).watch = s.watch) ∧
    ((clear_watches_mid s chat).db = (clear_watches s chat).db ∧
     (clear_watches_mid s chat).watch = s.watch) ∧
    ((update_status_mid s chat coin st).db = (update_status s chat coin st).1.db ∧
     (update_status_mid s chat coin st).watch = s.watch) ∧
    (Sync s → Sync (add_subscriber s chat)) ∧
    (Sync s → Sync (set_watch s chat coin st)) ∧
    (Sync s → Sync (remove_watch s chat coin).1) ∧
    (Sync s → Sync (clear_watches s chat)) ∧
    (Sync s → (wGet s.watch chat coin).isSome → Sync (update_status s chat coin st).1) := by
  refine ⟨⟨rfl, rfl, rfl⟩, ⟨rfl, rfl⟩, ⟨rfl, rfl⟩, ⟨rfl, rfl⟩, ⟨?_, ?_⟩,
    sync_add_subscriber s chat, sync_set_watch s chat coin st,
    sync_remove_watch s chat coin, sync_clear_watches s chat,
    fun h hex => sync_update_status s chat coin st h hex⟩
  · unfold update_status_mid update_status
    dsimp only
    split_ifs <;> rfl
  · unfold update_status_mid
    split_ifs <;> rfl

/-- Witness for the amended C4: agreement holds after a concrete `set_watch`
from the empty agreeing state. -/
theorem claim_C4_witness :
    Sync (set_watch emptyBotState "c" "x" ⟨[], none, 0⟩) := by
  have hempty : Sync emptyBotState :=
    ⟨fun c => by simp [emptyBotState, alGet],
     fun c k => by simp [emptyBotState, wGet, alGet]⟩
  exact (claim_C4_write_through emptyBotState "c" "x"
    ⟨[], none, 0⟩).2.2.2.2.2.2.1 hempty

/-- Event counting distributes over append. -/
theorem countEvents_append (p : Event → Bool) (a b : List Event) :
    countEvents p (a ++ b) = countEvents p a + countEvents p b := by
  simp [countEvents, List.filter_append]

/-- Claim C2: in a monitor pass, for a watch whose chat is not paused and
whose fetch succeeds with record `r`, a per-watch change notification is
sent to that chat iff both (1) `update_status` wrote — i.e. the new
serialized status differs from the stored one — and (2) the classification
changed — i.e. the new record's `fixed_list` differs from the `fixed_list`
reconstructed from the stored serialized status, a missing prior status
counting as changed. One `.write` event is recorded iff the serialized
status differs. -/
theorem claim_C2_per_watch_notification (s : BotStateM) (fetch : String → FetchOutcome) (now : ℕ)
    (chat coin : String) (last : SerStatus) (evs0 : List Event) (b : Bool) (r : ApiItem)
    (hp : dbIsPaused s.db chat = false) (hf : fetch coin = .success r) :
    countEvents Event.isNotify (checkStep fetch now (s, evs0, b) (chat, coin, last)).2.1 =
      countEvents Event.isNotify evs0 +
        (if wGet s.watch chat coin ≠ some (TokenStatus.from_api_response r now).to_string ∧
            statusChangedOf coin (wGet s.watch chat coin)
              (TokenStatus.from_api_response r now) = true
         then 1 else 0) ∧
    countEvents Event.isWrite (checkStep fetch now (s, evs0, b) (chat, coin, last)).2.1 =
      countEvents Event.isWrite evs0 +
        (if wGet s.watch chat coin ≠ some (TokenStatus.from_api_response r now).to_string
         then 1 else 0) ∧
    (wGet s.watch chat coin ≠ some (TokenStatus.from_api_response r now).to_string ∧
        statusChangedOf coin (wGet s.watch chat coin)
          (TokenStatus.from_api_response r now) = true →
      Event.notify chat (monitorChangeMsg coin (TokenStatus.from_api_response r now)) ∈
        (checkStep fetch now (s, evs0, b) (chat, coin, last)).2.1) := by
  unfold checkStep
  simp only [hp, Bool.false_eq_true, if_false, hf]
  by_cases hw : wGet s.watch chat coin = some (TokenStatus.from_api_response r now).to_string
  · simp only [update_status, hw, ne_eq, not_true_eq_false, if_false]
    simp [hw, countEvents_append]
  · simp only [update_status, ne_eq, hw, not_false_eq_true, if_true]
    by_cases hc : statusChangedOf coin (wGet s.watch chat coin)
        (TokenStatus.from_api_response r now) = true
    · simp [hw, hc, countEvents_append, countEvents, Event.isNotify, Event.isWrite]
    · simp [hw, hc, countEvents_append, countEvents, Event.isNotify, Event.isWrite]

/-- Witness for C2: a stored sold-out status, a fresh available record — the
write occurs, the classification changed, exactly one notification. -/
theorem claim_C2_witness :
    countEvents Event.isNotify
      (checkStep (fun _ => FetchOutcome.success plainItem) 5
        (singleWatchState "c" "algo" ⟨[2], none, 0⟩, [], false)
        ("c", "algo", ⟨[2], none, 0⟩)).2.1 = 1 := by
  have h := (claim_C2_per_watch_notification (singleWatchState "c" "algo" ⟨[2], none, 0⟩)
    (fun _ => FetchOutcome.success plainItem) 5 "c" "algo" ⟨[2], none, 0⟩ [] false plainItem
    (by decide) rfl).1
  rw [h]
  decide

/-- Helper: full evaluation of one monitor pass over a single-watch registry
whose fetch succeeds with record `r` at instant `t`: the pass writes iff the
new serialized status differs from the stored one, and additionally notifies
iff the classification changed; no alert or recovery is emitted. -/
theorem singleWatch_pass_eval (chat coin : String) (stored : SerStatus) (r : ApiItem) (t : ℕ) :
    check_once (singleWatchState chat coin stored) (fun _ => FetchOutcome.success r) t =
      (if stored = (TokenStatus.from_api_response r t).to_string then
        (singleWatchState chat coin stored, [])
      else
        (singleWatchState chat coin (TokenStatus.from_api_response r t).to_string,
         Event.write chat coin (TokenStatus.from_api_response r t).to_string ::
           (if stored.fixed_list ≠ (TokenStatus.from_api_response r t).fixed_list then
             [Event.notify chat
               (monitorChangeMsg coin (TokenStatus.from_api_response r t))]
           else []))) := by
  by_cases hs : stored = (TokenStatus.from_api_response r t).to_string
  · simp only [hs, if_true]
    simp [check_once, get_watches, singleWatchState, checkStep, dbIsPaused, alGet,
      wGet, update_status, statusChangedOf]
  · simp only [hs, if_false]
    by_cases hc : stored.fixed_list = (TokenStatus.from_api_response r t).fixed_list
    · simp [check_once, get_watches, singleWatchState, checkStep, dbIsPaused, alGet,
        wGet, update_status, statusChangedOf, hs, hc, dbUpdateWatchStatus, alUpdate,
        wSet, alSet, TokenStatus.from_string]
    · simp [check_once, get_watches, singleWatchState, checkStep, dbIsPaused, alGet,
        wGet, update_status, statusChangedOf, hs, hc, dbUpdateWatchStatus, alUpdate,
        wSet, alSet, TokenStatus.from_string]

/-- Amended claim C3: feeding the monitor the identical record in two
consecutive passes with distinct timestamps produces zero notifications on
the second pass but one further status write there (the serialized status
embeds the poll timestamp, so the second serialization differs from the
first); the first pass performs one write iff the stored serialization
differs from the new one, and one notification iff additionally the stored
classification differs. -/
theorem claim_C3_idempotence_amended (chat coin : String) (stored : SerStatus) (r : ApiItem)
    (t1 t2 : ℕ) (h12 : t1 ≠ t2) :
    countEvents Event.isWrite
      (check_once
        (check_once (singleWatchState chat coin stored)
          (fun _ => FetchOutcome.success r) t1).1
        (fun _ => FetchOutcome.success r) t2).2 = 1 ∧
    countEvents Event.isNotify
      (check_once
        (check_once (singleWatchState chat coin stored)
          (fun _ => FetchOutcome.success r) t1).1
        (fun _ => FetchOutcome.success r) t2).2 = 0 ∧
    countEvents Event.isWrite
      (check_once (singleWatchState chat coin stored)
        (fun _ => FetchOutcome.success r) t1).2 =
      (if stored = (TokenStatus.from_api_response r t1).to_string then 0 else 1) ∧
    countEvents Event.isNotify
      (check_once (singleWatchState chat coin stored)
        (fun _ => FetchOutcome.success r) t1).2 =
      (if stored ≠ (TokenStatus.from_api_response r t1).to_string ∧
          stored.fixed_list ≠ (TokenStatus.from_api_response r t1).fixed_list
       then 1 else 0) := by
  have hne : (TokenStatus.from_api_response r t1).to_string ≠
      (TokenStatus.from_api_response r t2).to_string := by
    simp [TokenStatus.to_string, TokenStatus.from_api_response, SerStatus.mk.injEq, h12]
  have hfl2 : (TokenStatus.from_api_response r t1).fixed_list =
      (TokenStatus.from_api_response r t2).fixed_list := rfl
  by_cases hs1 : stored = (TokenStatus.from_api_response r t1).to_string
  · rw [singleWatch_pass_eval, if_pos hs1]
    have hs2 : stored ≠ (TokenStatus.from_api_response r t2).to_string := by
      rw [hs1]; exact hne
    rw [singleWatch_pass_eval, if_neg hs2]
    have hfl : ¬ stored.fixed_list ≠ (TokenStatus.from_api_response r t2).fixed_list := by
      rw [hs1]
      simp [TokenStatus.to_string, hfl2]
    have hflx : (TokenStatus.from_api_response r t1).to_string.fixed_list =
        (TokenStatus.from_api_response r t2).fixed_list := rfl
    simp [hfl, hs1, hflx, countEvents, Event.isWrite, Event.isNotify]
  · rw [singleWatch_pass_eval, if_neg hs1]
    simp only
    rw [singleWatch_pass_eval, if_neg hne]
    have hfl : ¬ (TokenStatus.from_api_response r t1).to_string.fixed_list ≠
        (TokenStatus.from_api_response r t2).fixed_list := by
      simp [TokenStatus.to_string, hfl2]
    simp only [hfl, if_false, hs1]
    refine ⟨?_, ?_, ?_, ?_⟩
    · simp [countEvents, Event.isWrite]
    · simp [countEvents, Event.isNotify]
    · by_cases hc : stored.fixed_list ≠ (TokenStatus.from_api_response r t1).fixed_list <;>
        simp [hc, hs1, countEvents, Event.isWrite]
    · by_cases hc : stored.fixed_list ≠ (TokenStatus.from_api_response r t1).fixed_list <;>
        simp [hc, hs1, countEvents, Event.isNotify]

/-- Counterexample to claim C3 as stated: one watch stored at timestamp 0,
the monitor fed the identical record in two consecutive passes (timestamps 1
and 2) performs a status write in each pass — two writes in total, one of
them on the second identical pass — because `to_string` embeds the
observation timestamp and `update_status` compares serialized strings. -/
theorem claim_C3_counterexample :
    countEvents Event.isWrite
      (check_once (singleWatchState "c" "algo" ⟨[1], none, 0⟩)
        (fun _ => FetchOutcome.success plainItem) 1).2 +
    countEvents Event.isWrite
      (check_once
        (check_once (singleWatchState "c" "algo" ⟨[1], none, 0⟩)
          (fun _ => FetchOutcome.success plainItem) 1).1
        (fun _ => FetchOutcome.success plainItem) 2).2 = 2 := by
  decide

/-- Witness for the amended C3 at concrete inputs: the second identical pass
performs one write and no notification. -/
theorem claim_C3_witness :
    countEvents Event.isWrite
      (check_once
        (check_once (singleWatchState "c" "algo" ⟨[2], none, 7⟩)
          (fun _ => FetchOutcome.success plainItem) 1).1
        (fun _ => FetchOutcome.success plainItem) 2).2 = 1 ∧
    countEvents Event.isNotify
      (check_once
        (check_once (singleWatchState "c" "algo" ⟨[2], none, 7⟩)
          (fun _ => FetchOutcome.success plainItem) 1).1
        (fun _ => FetchOutcome.success plainItem) 2).2 = 0 := by
  have h := claim_C3_idempotence_amended "c" "algo" ⟨[2], none, 7⟩ plainItem 1 2
    (by decide)
  exact ⟨h.1, h.2.1⟩

/-- While the global alert is active, a watch-loop over outcomes that all
fail or come back empty changes nothing and emits nothing. -/
theorem allfail_fold_alerted (fetch : String → FetchOutcome) (now : ℕ)
    (hfail : ∀ c, (fetch c).isSuccess = false) :
    ∀ (ws : List (String × String × SerStatus)) (s : BotStateM) (evs : List Event) (b : Bool),
    s.global_alerted = true →
    List.foldl (checkStep fetch now) (s, evs, b) ws = (s, evs, b) := by
  intro ws
  induction ws with
  | nil => intro s evs b _; rfl
  | cons w rest ih =>
    intro s evs b halert
    rw [List.foldl_cons]
    have hstep : checkStep fetch now (s, evs, b) w = (s, evs, b) := by
      cases hf : fetch w.2.1 with
      | success item =>
        have := hfail w.2.1
        rw [hf] at this
        simp [FetchOutcome.isSuccess] at this
      | fail msg => simp [checkStep, hf, halert]
      | empty => simp [checkStep, hf, halert]
    rw [hstep]
    exact ih s evs b halert

/-- With no active alert and every outcome failing or empty: a loop over
only-paused watches does nothing, and a loop containing a non-paused watch
emits exactly one alert (at the first such watch) and sets the flag. -/
theorem allfail_fold_unalerted (fetch : String → FetchOutcome) (now : ℕ)
    (hfail : ∀ c, (fetch c).isSuccess = false) :
    ∀ (ws : List (String × String × SerStatus)) (s : BotStateM) (evs : List Event) (b : Bool),
    s.global_alerted = false →
    ((∀ w ∈ ws, dbIsPaused s.db w.1 = true) →
      List.foldl (checkStep fetch now) (s, evs, b) ws = (s, evs, b)) ∧
    ((∃ w ∈ ws, dbIsPaused s.db w.1 = false) →
      ∃ m, List.foldl (checkStep fetch now) (s, evs, b) ws =
        ({s with global_alerted := true}, evs ++ [Event.alert m], b)) := by
  intro ws
  induction ws with
  | nil =>
    intro s evs b _
    exact ⟨fun _ => rfl, fun h => absurd h (by simp)⟩
  | cons w rest ih =>
    intro s evs b halert
    constructor
    · intro hall
      rw [List.foldl_cons]
      have hp := hall w (by simp)
      have hstep : checkStep fetch now (s, evs, b) w = (s, evs, b) := by
        simp [checkStep, hp]
      rw [hstep]
      exact (ih s evs b halert).1 (fun x hx => hall x (by simp [hx]))
    · intro hex
      rw [List.foldl_cons]
      by_cases hp : dbIsPaused s.db w.1 = true
      · have hstep : checkStep fetch now (s, evs, b) w = (s, evs, b) := by
          simp [checkStep, hp]
        rw [hstep]
        have hex2 : ∃ x ∈ rest, dbIsPaused s.db x.1 = false := by
          rcases hex with ⟨x, hx, hxp⟩
          rcases List.mem_cons.mp hx with h | h
          · subst h; rw [hp] at hxp; simp at hxp
          · exact ⟨x, h, hxp⟩
        exact (ih s evs b halert).2 hex2
      · have hp2 : dbIsPaused s.db w.1 = false := by
          cases h : dbIsPaused s.db w.1
          · rfl
          · exact absurd h hp
        cases hf : fetch w.2.1 with
        | success item =>
          have := hfail w.2.1
          rw [hf] at this
          simp [FetchOutcome.isSuccess] at this
        | fail msg =>
          have hstep : checkStep fetch now (s, evs, b) w =
              ({s with global_alerted := true},
               evs ++ [Event.alert ("Ошибка при получении данных: " ++ msg)], b) := by
            simp [checkStep, hp2, hf, halert]
          rw [hstep]
          rw [allfail_fold_alerted fetch now hfail rest _ _ _ rfl]
          exact ⟨_, rfl⟩
        | empty =>
          have hstep : checkStep fetch now (s, evs, b) w =
              ({s with global_alerted := true},
               evs ++ [Event.alert ("Ошибка: пустой ответ для " ++ w.2.1.toUpper)], b) := by
            simp [checkStep, hp2, hf, halert]
          rw [hstep]
          rw [allfail_fold_alerted fetch now hfail rest _ _ _ rfl]
          exact ⟨_, rfl⟩

/-- Any number of all-failing passes from an alerted state emit nothing and
change nothing. -/
theorem allfail_passes_alerted :
    ∀ (passes : List ((String → FetchOutcome) × ℕ)) (s : BotStateM),
    s.global_alerted = true →
    (∀ p ∈ passes, ∀ c, ((p.1 : String → FetchOutcome) c).isSuccess = false) →
    runPasses s passes = (s, []) := by
  intro passes
  induction passes with
  | nil => intro s _ _; rfl
  | cons p rest ih =>
    intro s halert hfail
    have hpass : check_once s p.1 p.2 = (s, []) := by
      unfold check_once
      dsimp only
      rw [allfail_fold_alerted p.1 p.2 (hfail p (by simp)) (get_watches s) s [] false halert]
      simp
    simp only [runPasses, hpass]
    rw [ih s halert (fun q hq => hfail q (by simp [hq]))]
    rfl

/-- A non-empty sequence of all-failing passes from an unalerted state with
at least one non-paused watch emits exactly one event in total — a single
global alert — and only sets the alert flag. -/
theorem allfail_sequence (s : BotStateM) (passes : List ((String → FetchOutcome) × ℕ))
    (h0 : s.global_alerted = false) (hne : passes ≠ [])
    (hfail : ∀ p ∈ passes, ∀ c, ((p.1 : String → FetchOutcome) c).isSuccess = false)
    (hpoll : ∃ w ∈ get_watches s, dbIsPaused s.db w.1 = false) :
    ∃ m, runPasses s passes = ({s with global_alerted := true}, [Event.alert m]) := by
  obtain ⟨p, rest, rfl⟩ : ∃ p rest, passes = p :: rest := by
    cases passes with
    | nil => exact absurd rfl hne
    | cons p rest => exact ⟨p, rest, rfl⟩
  obtain ⟨m, hfold⟩ := (allfail_fold_unalerted p.1 p.2 (hfail p (by simp))
    (get_watches s) s [] false h0).2 hpoll
  have hpass : check_once s p.1 p.2 = ({s with global_alerted := true}, [Event.alert m]) := by
    unfold check_once
    dsimp only
    rw [hfold]
    simp
  refine ⟨m, ?_⟩
  simp only [runPasses, hpass]
  rw [allfail_passes_alerted rest _ rfl (fun q hq => hfail q (by simp [hq]))]
  rfl

/-- One loop iteration from an alerted state: the flag and the subscribers
table are preserved, no alert is emitted, `any_success` is monotone and is
set by a non-paused successful poll. -/
theorem step_alerted_inv (fetch : String → FetchOutcome) (now : ℕ)
    (acc : BotStateM × List Event × Bool) (w : String × String × SerStatus)
    (halert : acc.1.global_alerted = true) :
    (checkStep fetch now acc w).1.global_alerted = true ∧
    (checkStep fetch now acc w).1.db.subscribers = acc.1.db.subscribers ∧
    countEvents Event.isAlert (checkStep fetch now acc w).2.1 =
      countEvents Event.isAlert acc.2.1 ∧
    (acc.2.2 = true → (checkStep fetch now acc w).2.2 = true) ∧
    (dbIsPaused acc.1.db w.1 = false → (fetch w.2.1).isSuccess = true →
      (checkStep fetch now acc w).2.2 = true) := by
  obtain ⟨s, evs, b⟩ := acc
  simp only at halert
  by_cases hp : dbIsPaused s.db w.1 = true
  · simp [checkStep, hp, halert]
  · have hp2 : dbIsPaused s.db w.1 = false := by
      cases h : dbIsPaused s.db w.1
      · rfl
      · exact absurd h hp
    cases hf : fetch w.2.1 with
    | fail msg =>
      simp [checkStep, hp2, hf, halert, FetchOutcome.isSuccess]
    | empty =>
      simp [checkStep, hp2, hf, halert, FetchOutcome.isSuccess]
    | success item =>
      have hup1 : (update_status s w.1 w.2.1
          (TokenStatus.from_api_response item now).to_string).1.global_alerted =
          s.global_alerted := by
        unfold update_status
        dsimp only
        split_ifs <;> rfl
      have hup2 : (update_status s w.1 w.2.1
          (TokenStatus.from_api_response item now).to_string).1.db.subscribers =
          s.db.subscribers := by
        unfold update_status
        dsimp only
        split_ifs <;> rfl
      simp only [checkStep, hp2, Bool.false_eq_true, if_false, hf]
      dsimp only
      refine ⟨by rw [hup1]; exact halert, hup2, ?_, fun _ => trivial, fun _ _ => trivial⟩
      simp only [countEvents_append]
      have h1 : countEvents Event.isAlert
          (if (update_status s w.1 w.2.1
              (TokenStatus.from_api_response item now).to_string).2 = true then
            [Event.write w.1 w.2.1 (TokenStatus.from_api_response item now).to_string]
          else []) = 0 := by
        split_ifs <;> simp [countEvents, Event.isAlert]
      have h2 : countEvents Event.isAlert
          (if ((update_status s w.1 w.2.1
                (TokenStatus.from_api_response item now).to_string).2 &&
              statusChangedOf w.2.1 (wGet s.watch w.1 w.2.1)
                (TokenStatus.from_api_response item now)) = true then
            [Event.notify w.1 (monitorChangeMsg w.2.1
              (TokenStatus.from_api_response item now))]
          else []) = 0 := by
        split_ifs <;> simp [countEvents, Event.isAlert]
      omega

/-- The watch loop from an alerted state: flag and subscribers preserved,
no alert emitted, and a non-paused successful poll anywhere in the snapshot
sets `any_success`. -/
theorem fold_alerted_inv (fetch : String → FetchOutcome) (now : ℕ) :
    ∀ (ws : List (String × String × SerStatus)) (acc : BotStateM × List Event × Bool),
    acc.1.global_alerted = true →
    (List.foldl (checkStep fetch now) acc ws).1.global_alerted = true ∧
    (List.foldl (checkStep fetch now) acc ws).1.db.subscribers = acc.1.db.subscribers ∧
    countEvents Event.isAlert (List.foldl (checkStep fetch now) acc ws).2.1 =
      countEvents Event.isAlert acc.2.1 ∧
    (acc.2.2 = true → (List.foldl (checkStep fetch now) acc ws).2.2 = true) ∧
    (∀ w ∈ ws, dbIsPaused acc.1.db w.1 = false → (fetch w.2.1).isSuccess = true →
      (List.foldl (checkStep fetch now) acc ws).2.2 = true) := by
  intro ws
  induction ws with
  | nil =>
    intro acc halert
    exact ⟨halert, rfl, rfl, fun h => h, fun w hw => absurd hw (by simp)⟩
  | cons w rest ih =>
    intro acc halert
    rw [List.foldl_cons]
    obtain ⟨ha1, ha2, ha3, ha4, ha5⟩ := step_alerted_inv fetch now acc w halert
    obtain ⟨hb1, hb2, hb3, hb4, hb5⟩ := ih (checkStep fetch now acc w) ha1
    refine ⟨hb1, hb2.trans ha2, hb3.trans ha3, fun hb => hb4 (ha4 hb), ?_⟩
    intro x hx hxp hxs
    rcases List.mem_cons.mp hx with h | h
    · subst h
      exact hb4 (ha5 hxp hxs)
    · refine hb5 x h ?_ hxs
      simp only [dbIsPaused] at hxp ⊢
      rw [ha2]
      exact hxp

/-- A pass from an alerted state containing at least one non-paused
successful poll emits exactly one alert-type broadcast — the recovery
notice, as the last event of the pass — clears the alert flag and resets the
global failure counter, the per-asset failure counters and the alerted set. -/
theorem recovery_pass_eval (s : BotStateM) (fetch : String → FetchOutcome) (now : ℕ)
    (halert : s.global_alerted = true)
    (hsucc : ∃ w ∈ get_watches s, dbIsPaused s.db w.1 = false ∧
      (fetch w.2.1).isSuccess = true) :
    countEvents Event.isAlert (check_once s fetch now).2 = 1 ∧
    (check_once s fetch now).2.getLast? = some (Event.alert recoveryMsg) ∧
    (check_once s fetch now).1.global_alerted = false ∧
    (check_once s fetch now).1.global_failures = 0 ∧
    (check_once s fetch now).1.coin_failures = [] ∧
    (check_once s fetch now).1.coin_alerted = [] := by
  obtain ⟨h1, h2, h3, _, h5⟩ :=
    fold_alerted_inv fetch now (get_watches s) (s, [], false) halert
  obtain ⟨w, hw, hwp, hws⟩ := hsucc
  have hsucc2 : (List.foldl (checkStep fetch now) (s, [], false) (get_watches s)).2.2 = true :=
    h5 w hw hwp hws
  unfold check_once
  dsimp only
  rw [hsucc2, h1]
  simp only [Bool.and_self, if_true]
  refine ⟨?_, ?_, by trivial, by trivial, by trivial, by trivial⟩
  · rw [countEvents_append, h3]
    simp [countEvents, Event.isAlert]
  · simp

/-- Claim C1: across a sequence of monitor passes whose single-asset polls
all fail or come back empty, exactly one global alert broadcast is sent — on
the first failing poll observed while `global_alerted` is false — and none
afterwards while it stays true; the state is unchanged except for the flag.
The first subsequent pass containing a successful poll while the flag is
true sends exactly one recovery broadcast to the subscribers and resets
`global_failures` to 0, `global_alerted` to false, and empties the per-asset
failure counter map and alerted set. -/
theorem claim_C1_alert_deduplication (s0 : BotStateM)
    (passes : List ((String → FetchOutcome) × ℕ)) (pr : (String → FetchOutcome) × ℕ)
    (h0 : s0.global_alerted = false) (hne : passes ≠ [])
    (hfail : ∀ p ∈ passes, ∀ c, ((p.1 : String → FetchOutcome) c).isSuccess = false)
    (hpoll : ∃ w ∈ get_watches s0, dbIsPaused s0.db w.1 = false)
    (hsucc : ∃ w ∈ get_watches s0, dbIsPaused s0.db w.1 = false ∧
      ((pr.1 : String → FetchOutcome) w.2.1).isSuccess = true) :
    (∃ m, (runPasses s0 passes).2 = [Event.alert m]) ∧
    (runPasses s0 passes).1 = { s0 with global_alerted := true } ∧
    countEvents Event.isAlert (check_once (runPasses s0 passes).1 pr.1 pr.2).2 = 1 ∧
    (check_once (runPasses s0 passes).1 pr.1 pr.2).2.getLast? =
      some (Event.alert recoveryMsg) ∧
    (check_once (runPasses s0 passes).1 pr.1 pr.2).1.global_alerted = false ∧
    (check_once (runPasses s0 passes).1 pr.1 pr.2).1.global_failures = 0 ∧
    (check_once (runPasses s0 passes).1 pr.1 pr.2).1.coin_failures = [] ∧
    (check_once (runPasses s0 passes).1 pr.1 pr.2).1.coin_alerted = [] := by
  obtain ⟨m, hrun⟩ := allfail_sequence s0 passes h0 hne hfail hpoll
  have hrec := recovery_pass_eval { s0 with global_alerted := true } pr.1 pr.2 rfl hsucc
  rw [hrun]
  exact ⟨⟨m, rfl⟩, rfl, hrec.1, hrec.2.1, hrec.2.2.1, hrec.2.2.2.1,
    hrec.2.2.2.2.1, hrec.2.2.2.2.2⟩

/-- Witness for C1: one failing pass then one successful pass on a concrete
single-watch registry. -/
theorem claim_C1_witness :
    (∃ m, (runPasses (singleWatchState "c" "algo" ⟨[1], none, 0⟩)
        [(fun _ => FetchOutcome.fail "boom", 0)]).2 = [Event.alert m]) ∧
    countEvents Event.isAlert
      (check_once (runPasses (singleWatchState "c" "algo" ⟨[1], none, 0⟩)
          [(fun _ => FetchOutcome.fail "boom", 0)]).1
        (fun _ => FetchOutcome.success plainItem) 1).2 = 1 := by
  have h := claim_C1_alert_deduplication (singleWatchState "c" "algo" ⟨[1], none, 0⟩)
    [(fun _ => FetchOutcome.fail "boom", 0)]
    (fun _ => FetchOutcome.success plainItem, 1)
    rfl (by simp)
    (by
      intro p hp c
      rw [List.mem_singleton.mp hp]
      rfl)
    ⟨("c", "algo", ⟨[1], none, 0⟩), by simp [get_watches, singleWatchState], rfl⟩
    ⟨("c", "algo", ⟨[1], none, 0⟩), by simp [get_watches, singleWatchState], rfl, rfl⟩
  exact ⟨h.1, h.2.2.1⟩

end Bee
